import Mathlib

/-!
Verification of the ledger-and-settlement core of the trip expense tracker
(`src/main.py`, class `TripData`).

Embedding conventions:
* Python floats are modelled as exact rationals (`ℚ`).
* The Python dict used for balances is modelled as an association list
  (`List (String × ℚ)`) in insertion order; `balances[k] += δ` updates the
  first (and, for duplicate-free key lists, the only) entry with key `k`
  and raises `KeyError` when `k` is absent, exactly like a Python dict that
  is never extended after initialization.
* Python exceptions (`ZeroDivisionError` at `expense['amount'] /
  len(expense['split_among'])`, `KeyError` at `balances[name]`) are
  modelled with an `Except Err` result.
* `datetime.now().strftime(...)` is an external input; `add_expense`
  receives the formatted date string as an explicit argument.
* Persistence (`save_data` / `load_data`) is I/O plumbing outside the
  ledger core and is not modelled; the state-transforming content of each
  operation is.
-/

deriving instance DecidableEq for Except

namespace TripTracker

/-- Python runtime errors that the ledger code can raise:
`ZeroDivisionError` and `KeyError name`. -/
inductive Err where
  | divZero : Err
  | keyError : String → Err
deriving DecidableEq

/-- One expense record, as built by `TripData.add_expense` (src/main.py
lines 61-73).  `amount` is `float(amount)` modelled as a rational. -/
structure Expense where
  id : Int
  description : String
  amount : ℚ
  paid_by : List String
  split_among : List String
  category : String
  date : String
deriving DecidableEq

/-- One settlement record `{'from': ..., 'to': ..., 'amount': ...}`
(src/main.py lines 114-118). -/
structure Settlement where
  from_ : String
  to_ : String
  amount : ℚ
deriving DecidableEq

/-- The mutable state of `TripData` (src/main.py lines 38-41). -/
structure TripData where
  trip_name : String
  participants : List String
  expenses : List Expense
deriving DecidableEq

/-- `TripData.reset_trip` (src/main.py lines 38-41): the empty state. -/
def reset_trip : TripData :=
  { trip_name := "", participants := [], expenses := [] }

/-- `TripData.add_participant` (src/main.py lines 43-47):
`if name and name not in self.participants: append; return True` else
`return False`.  A non-empty Python string is truthy.  Returns the Python
return value together with the updated state. -/
def add_participant (t : TripData) (name : String) : Bool × TripData :=
  if name ≠ "" ∧ name ∉ t.participants then
    (true, { t with participants := t.participants ++ [name] })
  else
    (false, t)

/-- Python's `str.strip()`: drop leading and trailing whitespace
characters.  (Stated over the character list so that it evaluates by
kernel reduction; `String.trim` computes the same characters.) -/
def strip (s : String) : String :=
  String.mk (((s.data.dropWhile Char.isWhitespace).reverse.dropWhile
    Char.isWhitespace).reverse)

/-- `MainScreen.add_participant` (src/main.py lines 228-235) strips the
input text (`str.strip`) before calling `TripData.add_participant`;
together they are the user-level `addParticipant` operation of the
spec. -/
def screen_add_participant (t : TripData) (text : String) : Bool × TripData :=
  add_participant t (strip text)

/-- `TripData.remove_participant` (src/main.py lines 49-59).  Python's
`list.remove` deletes the first matching element and is guarded by a
membership test, which is exactly `List.erase`. -/
def remove_participant (t : TripData) (name : String) : Bool × TripData :=
  if name ∈ t.participants then
    (true,
      { t with
        participants := t.participants.erase name,
        expenses := t.expenses.map fun e =>
          { e with
            paid_by := e.paid_by.erase name,
            split_among := e.split_among.erase name } })
  else
    (false, t)

/-- `TripData.add_expense` (src/main.py lines 61-73): builds the expense
dict with `id = len(self.expenses) + 1` and appends it, returning the
expense.  The `amount` argument arrives already converted by
`float(amount)`. -/
def add_expense (t : TripData) (description : String) (amount : ℚ)
    (paid_by split_among : List String) (category : String) (date : String) :
    TripData × Expense :=
  let e : Expense :=
    { id := (t.expenses.length : Int) + 1
      description := description
      amount := amount
      paid_by := paid_by
      split_among := split_among
      category := category
      date := date }
  ({ t with expenses := t.expenses ++ [e] }, e)

/-- `TripData.remove_expense` (src/main.py lines 75-77):
`self.expenses = [e for e in self.expenses if e['id'] != expense_id]`. -/
def remove_expense (t : TripData) (expense_id : Int) : TripData :=
  { t with expenses := t.expenses.filter fun e => e.id ≠ expense_id }

/-- `balances[k] += δ` on the association-list model of the balances dict:
updates the first entry with key `k`, raises `KeyError k` when no entry
has key `k` (the dict is never extended by `+=`). -/
def addTo (k : String) (δ : ℚ) : List (String × ℚ) → Except Err (List (String × ℚ))
  | [] => .error (.keyError k)
  | (k', v) :: rest =>
    if k' = k then .ok ((k', v + δ) :: rest)
    else do
      let rest' ← addTo k δ rest
      .ok ((k', v) :: rest')

/-- A `for name in names: balances[name] += δ` loop over the balances
dict. -/
def creditEach (δ : ℚ) (names : List String) (bal : List (String × ℚ)) :
    Except Err (List (String × ℚ)) :=
  names.foldlM (fun b n => addTo n δ b) bal

/-- The body of the `for expense in self.expenses` loop of
`TripData.calculate_balances` (src/main.py lines 83-92).  Python first
evaluates `expense['amount'] / len(expense['split_among'])`, raising
`ZeroDivisionError` when `split_among` is empty; then credits each payer
with `expense['amount'] / len(expense['paid_by'])` (this division sits
inside the payer loop, so it is never evaluated when `paid_by` is empty —
hoisting it is faithful because the empty fold ignores the value, and `ℚ`
division by zero is total); then debits each beneficiary. -/
def balanceStep (bal : List (String × ℚ)) (e : Expense) :
    Except Err (List (String × ℚ)) :=
  if e.split_among.length = 0 then .error .divZero
  else do
    let amount_per_person := e.amount / (e.split_among.length : ℚ)
    let bal ← creditEach (e.amount / (e.paid_by.length : ℚ)) e.paid_by bal
    creditEach (-amount_per_person) e.split_among bal

/-- `TripData.calculate_balances` (src/main.py lines 79-94).  The balances
dict `{person: 0.0 for person in self.participants}` is the association
list pairing each participant with `0` (duplicate-free rosters make this
the exact dict), then each expense is folded in. -/
def calculate_balances (t : TripData) : Except Err (List (String × ℚ)) :=
  t.expenses.foldlM balanceStep (t.participants.map fun p => (p, (0 : ℚ)))

/-- Rounding to the nearest integer, half to even: the tie-breaking rule
of Python's built-in `round`. -/
def round_half_even (q : ℚ) : ℤ :=
  if q - (⌊q⌋ : ℚ) = 1 / 2 then (if ⌊q⌋ % 2 = 0 then ⌊q⌋ else ⌊q⌋ + 1)
  else ⌊q + 1 / 2⌋

/-- Python's `round(x, 2)` on the rational model. -/
def round2 (q : ℚ) : ℚ :=
  (round_half_even (q * 100) : ℚ) / 100

/-- The inner `for i, (creditor_name, credit_amount) in enumerate(creditors)`
loop of `TripData.get_settlements` (src/main.py lines 108-121) for one
debtor: walks the creditor list left to right, breaking as soon as
`remaining_debt <= 0.01`; transfers `min(remaining_debt, credit_amount)`
and, only when that amount exceeds `0.01`, records a settlement with the
amount rounded to two decimals and decrements the creditor entry in place.
Returns the updated creditor list together with the recorded settlements
in order. -/
def settleOne (debtor : String) :
    List (String × ℚ) → ℚ → List (String × ℚ) × List Settlement
  | [], _ => ([], [])
  | (c, credit) :: rest, remaining =>
    if remaining ≤ 1 / 100 then ((c, credit) :: rest, [])
    else
      let s := min remaining credit
      if s > 1 / 100 then
        let r := settleOne debtor rest (remaining - s)
        ((c, credit - s) :: r.1,
          { from_ := debtor, to_ := c, amount := round2 s } :: r.2)
      else
        let r := settleOne debtor rest remaining
        ((c, credit) :: r.1, r.2)

/-- The outer `for debtor_name, debt_amount in debtors` loop of
`TripData.get_settlements` (src/main.py lines 105-121): the creditor list
mutated by earlier debtors is passed on to later ones. -/
def settleAll (creditors : List (String × ℚ)) :
    List (String × ℚ) → List Settlement
  | [] => []
  | (d, debt) :: rest =>
    let r := settleOne d creditors debt
    r.2 ++ settleAll r.1 rest

/-- `TripData.get_settlements` (src/main.py lines 96-123): creditors are
the balance entries above `0.01`, debtors those below `-0.01` (carrying
the negated amount), both in the balances dict's insertion order; then the
greedy sweep.  Propagates any error raised by `calculate_balances`. -/
def get_settlements (t : TripData) : Except Err (List Settlement) := do
  let balances ← calculate_balances t
  let creditors := balances.filter fun pa => pa.2 > 1 / 100
  let debtors := (balances.filter fun pa => pa.2 < -(1 / 100)).map fun pa => (pa.1, -pa.2)
  .ok (settleAll creditors debtors)

/-! ## Specification-side definitions (from the spec's words, for
refinement claims) and the concrete states used by the theorems. -/

/-- The claim's balance formula (spec §4.2): sum over expenses paying `p`
of `amount / |paid_by|` minus sum over expenses splitting over `p` of
`amount / |split_among|`. -/
def balance_spec (es : List Expense) (p : String) : ℚ :=
  ((es.filter fun e => p ∈ e.paid_by).map fun e =>
      e.amount / (e.paid_by.length : ℚ)).sum -
    ((es.filter fun e => p ∈ e.split_among).map fun e =>
      e.amount / (e.split_among.length : ℚ)).sum

/-- Per-expense contribution to a participant's balance, counting list
occurrences (equal to the spec formula when the payer/beneficiary lists
are duplicate-free). -/
def expContrib (e : Expense) (p : String) : ℚ :=
  (e.paid_by.count p : ℚ) * (e.amount / (e.paid_by.length : ℚ)) -
    (e.split_among.count p : ℚ) * (e.amount / (e.split_among.length : ℚ))

/-- Accumulated contribution of a list of expenses to `p`'s balance. -/
def balProc (es : List Expense) (p : String) : ℚ :=
  (es.map fun e => expContrib e p).sum

/-- Pointwise update of a balance function, used to describe one
`balances[k] += δ`. -/
def updTo (f : String → ℚ) (k : String) (δ : ℚ) : String → ℚ :=
  fun p => if p = k then f p + δ else f p

/-- Spec-side copy of the per-debtor creditor scan, following the claim's
words: scan the creditor list in order while the debtor's remaining debt
exceeds `0.01`; transfer `min(remaining_debt, remaining_credit)`,
appending a record (amount rounded to 2 decimals) only when the
transferred amount exceeds `0.01`, and then decrementing that creditor's
remaining credit in place. -/
def spec_scan (debtor : String) :
    List (String × ℚ) → ℚ → List (String × ℚ) × List Settlement
  | [], _ => ([], [])
  | (c, credit) :: rest, remaining =>
    if remaining ≤ 1 / 100 then ((c, credit) :: rest, [])
    else
      let s := min remaining credit
      if s > 1 / 100 then
        let r := spec_scan debtor rest (remaining - s)
        ((c, credit - s) :: r.1,
          { from_ := debtor, to_ := c, amount := round2 s } :: r.2)
      else
        let r := spec_scan debtor rest remaining
        ((c, credit) :: r.1, r.2)

/-- Spec-side debtor sweep: debtors processed left to right, the creditor
list consumed by earlier debtors is passed on (credit is not
replenished). -/
def spec_sweep (creditors : List (String × ℚ)) :
    List (String × ℚ) → List Settlement
  | [] => []
  | (d, debt) :: rest =>
    let r := spec_scan d creditors debt
    r.2 ++ spec_sweep r.1 rest

/-- The claim's greedy computation over a balance mapping `bal`:
creditors are the roster members (in roster insertion order) with balance
above `0.01`, debtors those below `-0.01` carrying their absolute debt,
then the greedy sweep. -/
def greedy_spec (roster : List String) (bal : String → ℚ) : List Settlement :=
  spec_sweep ((roster.filter fun p => bal p > 1 / 100).map fun p => (p, bal p))
    ((roster.filter fun p => bal p < -(1 / 100)).map fun p => (p, -(bal p)))

/-- Frame relation for `removeParticipant` on one expense: all fields but
the name sets are preserved, `name` is gone from both sets, and every
other name's membership is unchanged. -/
def contracts (name : String) (e e' : Expense) : Prop :=
  e'.id = e.id ∧ e'.description = e.description ∧ e'.amount = e.amount ∧
    e'.category = e.category ∧ e'.date = e.date ∧
    name ∉ e'.paid_by ∧ name ∉ e'.split_among ∧
    (∀ q, q ≠ name →
      ((q ∈ e'.paid_by ↔ q ∈ e.paid_by) ∧
        (q ∈ e'.split_among ↔ q ∈ e.split_among)))

/-- Scenario A of the spec, built through the ledger operations:
participants Alice and Bob, one expense of 100 paid by Alice and split
among both. -/
def scenA : TripData :=
  (add_expense (add_participant (add_participant reset_trip ("Alice")).2 ("Bob")).2
    ("lunch") 100 [("Alice")] [("Alice"), ("Bob")] ("General") ("d")).1

/-- State for C1: Ann and Ben, one expense paid by Ann and split among Ben
only; removing Ben empties the expense's `split_among`. -/
def st1 : TripData :=
  (add_expense (add_participant (add_participant reset_trip ("Ann")).2 ("Ben")).2
    ("taxi") 100 [("Ann")] [("Ben")] ("General") ("d1")).1

/-- State for C4: one expense of 0.018 paid by Bob and Cal and split among
Ana alone, leaving balances Ana `-0.018`, Bob `0.009`, Cal `0.009` — a
debtor beyond the `0.01` threshold with no creditor above it. -/
def st4 : TripData :=
  (add_expense
    (add_participant (add_participant (add_participant reset_trip ("Ana")).2 ("Bob")).2
      ("Cal")).2
    ("tiny") (9 / 500) [("Bob"), ("Cal")] [("Ana")] ("General") ("d1")).1

/-- State for C5's counterexample: removing Bo (the only payer of the 100
expense) leaves an expense with empty `paid_by`, so the 100 is debited
from Al but credited to nobody. -/
def st5 : TripData :=
  (remove_participant
    (add_expense (add_participant (add_participant reset_trip ("Al")).2 ("Bo")).2
      ("hotel") 100 [("Bo")] [("Al")] ("General") ("d1")).1
    ("Bo")).2

/-- State for C6: a single participant, used to call `add_expense` with a
negative amount. -/
def st6 : TripData := (add_participant reset_trip ("Alice")).2

/-- State for C8's witness: Deb and Eve with one expense involving both. -/
def st8 : TripData :=
  (add_expense (add_participant (add_participant reset_trip ("Deb")).2 ("Eve")).2
    ("boat") 30 [("Deb")] [("Deb"), ("Eve")] ("General") ("d1")).1

/-- State for C9: add two expenses (ids 1 and 2), remove id 1, then add a
third expense, which receives id `len + 1 = 2` again — a duplicate
identifier. -/
def st9 : TripData :=
  (add_expense
    (remove_expense
      (add_expense
        (add_expense (add_participant reset_trip ("Ada")).2
          ("a") 10 [("Ada")] [("Ada")] ("General") ("d1")).1
        ("b") 20 [("Ada")] [("Ada")] ("General") ("d2")).1
      1)
    ("c") 30 [("Ada")] [("Ada")] ("General") ("d3")).1

/-- State for C10: the roster holds only Alice, but an expense names Bob
as payer; `add_expense` accepts it unchecked. -/
def st10 : TripData :=
  (add_expense (add_participant reset_trip ("Alice")).2 ("gas") 10 [("Bob")] [("Alice")]
    ("General") ("d1")).1

/-! ## Helper lemmas -/

theorem ok_bind {ε α β : Type} (a : α) (f : α → Except ε β) :
    (Except.ok a : Except ε α) >>= f = f a := rfl

theorem error_bind {ε α β : Type} (e : ε) (f : α → Except ε β) :
    (Except.error e : Except ε α) >>= f = .error e := rfl

/-! ## The claims -/

/-- C1: the claim says `calculate_balances` (and hence `get_settlements`)
is total on states where an expense's `paid_by` or `split_among` has
become empty, the empty side contributing zero.  The code contradicts it:
after `remove_participant` empties the `split_among` of st1's expense,
`expense['amount'] / len(expense['split_among'])` raises
`ZeroDivisionError`, so no balance mapping is returned at all. -/
theorem c1_divzero_after_removal :
    (remove_participant st1 ("Ben")).1 = true ∧
    (remove_participant st1 ("Ben")).2.expenses.map (fun e => e.split_among) = [[]] ∧
    calculate_balances (remove_participant st1 ("Ben")).2 = .error .divZero ∧
    get_settlements (remove_participant st1 ("Ben")).2 = .error .divZero := by
  refine ⟨by decide, by decide, by decide, by decide⟩

/-- C6: the claim says `add_expense` rejects non-positive amounts,
appending nothing.  The code contradicts it: with amount `-5` (which is
`≤ 0`) the expense record is constructed and appended. -/
theorem c6_nonpositive_accepted :
    (-5 : ℚ) ≤ 0 ∧
    (add_expense st6 ("snacks") (-5) [("Alice")] [("Alice")] ("General") ("d1")).2.amount
      = -5 ∧
    (add_expense st6 ("snacks") (-5) [("Alice")] [("Alice")] ("General") ("d1")).1.expenses
      = st6.expenses ++
        [(add_expense st6 ("snacks") (-5) [("Alice")] [("Alice")] ("General") ("d1")).2] ∧
    (add_expense st6 ("snacks") (-5) [("Alice")] [("Alice")] ("General") ("d1")).1.expenses.length
      = st6.expenses.length + 1 := by
  refine ⟨by decide, by decide, by decide, by decide⟩

/-- C10: `add_expense` performs no roster validation: st10's expense lists
Bob as payer although the roster is `["Alice"]`, the expense is accepted,
and `calculate_balances` then fails with `KeyError 'Bob'` instead of
returning a balance mapping. -/
theorem c10_no_roster_validation :
    st10.participants = [("Alice")] ∧
    st10.expenses.length = 1 ∧
    st10.expenses.map (fun e => e.paid_by) = [[("Bob")]] ∧
    calculate_balances st10 = .error (.keyError ("Bob")) ∧
    get_settlements st10 = .error (.keyError ("Bob")) := by
  refine ⟨by decide, by decide, by decide, by decide, by decide⟩

/-- C9 counterexample: in st9 two expenses carry the identifier 2 (the
spec itself notes identifiers are `count + 1` and can collide after
deletions), a match for id 2 exists, yet `remove_expense st9 2` removes
both matching expenses — not exactly one. -/
theorem c9_counterexample :
    st9.expenses.map (fun e => e.id) = [2, 2] ∧
    (∃ e ∈ st9.expenses, e.id = 2) ∧
    (remove_expense st9 2).expenses.length = 0 ∧
    ¬((remove_expense st9 2).expenses.length = st9.expenses.length - 1) := by
  refine ⟨by decide, by decide, by decide, by decide⟩

/-- C4: the claim says applying the returned settlements brings every
balance within `0.01` of zero.  In st4 (all expense sides non-empty and
drawn from the roster) Ana owes `0.018`, past the debtor threshold, but
both creditors hold only `0.009 ≤ 0.01` and are never listed, so
`get_settlements` returns no settlement at all and Ana's adjusted balance
stays at `-0.018`, outside the tolerance. -/
theorem c4_settlement_validity_fails :
    (∀ e ∈ st4.expenses,
      e.paid_by ≠ [] ∧ e.split_among ≠ [] ∧
        (∀ n ∈ e.paid_by, n ∈ st4.participants) ∧
        (∀ n ∈ e.split_among, n ∈ st4.participants)) ∧
    calculate_balances st4 =
      .ok [(("Ana"), -(9 / 500)), (("Bob"), 9 / 1000), (("Cal"), 9 / 1000)] ∧
    get_settlements st4 = .ok [] ∧
    (-(9 / 500) : ℚ) < -(1 / 100) ∧
    ¬(|(-(9 / 500) : ℚ)| ≤ 1 / 100) := by
  have habs : |(-(9 / 500) : ℚ)| = 9 / 500 := by
    rw [abs_neg]
    exact abs_of_pos (by norm_num)
  refine ⟨by decide, ?_, ?_, by norm_num, by rw [habs]; norm_num⟩
  · norm_num [st4, calculate_balances, balanceStep, creditEach, addTo, add_expense,
      add_participant, reset_trip, List.foldlM, ok_bind, error_bind,
      (show ¬("Ana" : String) = "Bob" from by decide),
      (show ¬("Bob" : String) = "Ana" from by decide),
      (show ¬("Cal" : String) = "Ana" from by decide),
      (show ¬("Cal" : String) = "Bob" from by decide),
      (show ¬("Bob" : String) = "Cal" from by decide),
      (show ¬("Ana" : String) = "Cal" from by decide)]
  · norm_num [st4, get_settlements, calculate_balances, balanceStep, creditEach, addTo,
      add_expense, add_participant, reset_trip, List.foldlM, ok_bind, error_bind,
      settleAll, settleOne,
      (show ¬("Ana" : String) = "Bob" from by decide),
      (show ¬("Bob" : String) = "Ana" from by decide),
      (show ¬("Cal" : String) = "Ana" from by decide),
      (show ¬("Cal" : String) = "Bob" from by decide),
      (show ¬("Bob" : String) = "Cal" from by decide),
      (show ¬("Ana" : String) = "Cal" from by decide)]

/-- C5 counterexample: st5's expense (reached by removing its only payer)
has empty `paid_by`, so its 100 is debited from Al and credited to nobody:
`calculate_balances` succeeds but the balances sum to `-100`, far outside
the `0.01` tolerance. -/
theorem c5_counterexample :
    st5.expenses.map (fun e => e.paid_by) = [[]] ∧
    calculate_balances st5 = .ok [(("Al"), -100)] ∧
    ¬(|(([(("Al"), (-100 : ℚ))]).map Prod.snd).sum| ≤ 1 / 100) := by
  refine ⟨by decide, ?_, by norm_num⟩
  norm_num [st5, calculate_balances, balanceStep, creditEach, addTo, add_expense,
    add_participant, remove_participant, reset_trip, List.foldlM, ok_bind, error_bind,
    List.erase, (show ¬("Al" : String) = "Bo" from by decide),
    (show ¬("Bo" : String) = "Al" from by decide),
    (show (("Al" : String) == "Bo") = false from by decide),
    (show (("Bo" : String) == "Al") = false from by decide)]

theorem addTo_sum {k : String} {δ : ℚ} :
    ∀ {bal bal' : List (String × ℚ)}, addTo k δ bal = .ok bal' →
      (bal'.map Prod.snd).sum = (bal.map Prod.snd).sum + δ := by
  intro bal
  induction bal with
  | nil => intro bal' h; simp [addTo] at h
  | cons kv rest ih =>
    intro bal' h
    obtain ⟨k', v⟩ := kv
    by_cases hk : k' = k
    · simp [addTo, hk] at h
      subst h
      simp
      ring
    · rw [addTo] at h
      simp only [if_neg hk] at h
      cases hrest : addTo k δ rest with
      | error e => rw [hrest] at h; simp [error_bind] at h
      | ok rest' =>
        rw [hrest, ok_bind] at h
        cases h
        have := ih hrest
        simp [this]
        ring

theorem creditEach_sum {δ : ℚ} :
    ∀ {names : List String} {bal bal' : List (String × ℚ)},
      creditEach δ names bal = .ok bal' →
      (bal'.map Prod.snd).sum = (bal.map Prod.snd).sum + (names.length : ℚ) * δ := by
  intro names
  induction names with
  | nil =>
    intro bal bal' h
    simp [creditEach, List.foldlM, pure, Except.pure] at h
    subst h
    simp
  | cons n ns ih =>
    intro bal bal' h
    rw [creditEach, List.foldlM] at h
    cases hstep : addTo n δ bal with
    | error e => rw [hstep] at h; simp [error_bind] at h
    | ok b =>
      rw [hstep, ok_bind] at h
      have h1 := addTo_sum hstep
      have h2 := ih h
      rw [h2, h1, List.length_cons]
      push_cast
      ring

theorem balanceStep_sum {bal bal' : List (String × ℚ)} {e : Expense}
    (hpaid : e.paid_by ≠ []) (h : balanceStep bal e = .ok bal') :
    (bal'.map Prod.snd).sum = (bal.map Prod.snd).sum := by
  rw [balanceStep] at h
  by_cases hsplit : e.split_among.length = 0
  · rw [if_pos hsplit] at h; simp at h
  · rw [if_neg hsplit] at h
    cases h1 : creditEach (e.amount / (e.paid_by.length : ℚ)) e.paid_by bal with
    | error er => rw [h1] at h; simp [error_bind] at h
    | ok b =>
      rw [h1, ok_bind] at h
      have s1 := creditEach_sum h1
      have s2 := creditEach_sum h
      have hp : (e.paid_by.length : ℚ) ≠ 0 :=
        Nat.cast_ne_zero.2 fun h0 => hpaid (List.length_eq_zero.1 h0)
      have hs : (e.split_among.length : ℚ) ≠ 0 := Nat.cast_ne_zero.2 hsplit
      rw [s2, s1]
      field_simp
      ring

theorem foldl_balanceStep_sum :
    ∀ {es : List Expense} {bal bs : List (String × ℚ)},
      (∀ e ∈ es, e.paid_by ≠ []) →
      es.foldlM balanceStep bal = .ok bs →
      (bs.map Prod.snd).sum = (bal.map Prod.snd).sum := by
  intro es
  induction es with
  | nil =>
    intro bal bs _ h
    simp [List.foldlM, pure, Except.pure] at h
    subst h
    rfl
  | cons e es ih =>
    intro bal bs hpaid h
    rw [List.foldlM] at h
    cases hstep : balanceStep bal e with
    | error er => rw [hstep] at h; simp [error_bind] at h
    | ok b =>
      rw [hstep, ok_bind] at h
      rw [ih (fun x hx => hpaid x (List.mem_cons_of_mem e hx)) h,
        balanceStep_sum (hpaid e (List.mem_cons_self e es)) hstep]

/-- C5 amended: whenever `calculate_balances` returns a mapping and every
expense has a non-empty `paid_by` (the claim's unrestricted version fails,
see the counterexample), the balances sum to exactly 0 — in particular
within the claimed `0.01` tolerance. -/
theorem c5_sum_balances_zero (t : TripData) (bs : List (String × ℚ))
    (hpaid : ∀ e ∈ t.expenses, e.paid_by ≠ [])
    (h : calculate_balances t = .ok bs) :
    (bs.map Prod.snd).sum = 0 ∧ |(bs.map Prod.snd).sum| ≤ 1 / 100 := by
  rw [calculate_balances] at h
  have h0 := foldl_balanceStep_sum hpaid h
  have hinit :
      ((t.participants.map fun p => (p, (0 : ℚ))).map Prod.snd).sum = 0 := by
    rw [List.map_map]
    exact List.sum_eq_zero (by simp)
  rw [hinit] at h0
  exact ⟨h0, by rw [h0]; norm_num⟩

/-- Scenario A balances, used to discharge witnesses. -/
theorem scenA_balances :
    calculate_balances scenA = .ok [(("Alice"), 50), (("Bob"), -50)] := by
  norm_num [scenA, calculate_balances, balanceStep, creditEach, addTo, add_expense,
    add_participant, reset_trip, List.foldlM, ok_bind, error_bind,
    (show ¬("Alice" : String) = "Bob" from by decide),
    (show ¬("Bob" : String) = "Alice" from by decide)]

theorem c5_witness :
    (([(("Alice"), (50 : ℚ)), (("Bob"), -50)]).map Prod.snd).sum = 0 ∧
    |(([(("Alice"), (50 : ℚ)), (("Bob"), -50)]).map Prod.snd).sum| ≤ 1 / 100 :=
  c5_sum_balances_zero scenA _ (by decide) scenA_balances

/-- C7: the user-level `addParticipant` (strip, then
`TripData.add_participant`) succeeds — returning true and appending the
trimmed name, everything else unchanged — exactly when the name is
non-empty after trimming and not yet in the roster (case-sensitive);
otherwise it returns false and changes nothing. -/
theorem c7_add_participant_iff (t : TripData) (name : String) :
    (strip name ≠ "" ∧ strip name ∉ t.participants →
      screen_add_participant t name =
        (true, { t with participants := t.participants ++ [strip name] })) ∧
    (¬(strip name ≠ "" ∧ strip name ∉ t.participants) →
      screen_add_participant t name = (false, t)) := by
  constructor
  · intro h
    rw [screen_add_participant, add_participant, if_pos h]
  · intro h
    rw [screen_add_participant, add_participant, if_neg h]

theorem c7_witness :
    screen_add_participant reset_trip (" Alice ") =
      (true,
        { trip_name := "", participants := [] ++ [strip (" Alice ")], expenses := [] }) ∧
    strip (" Alice ") = ("Alice") ∧
    screen_add_participant (add_participant reset_trip ("Alice")).2 ("Alice") =
      (false, (add_participant reset_trip ("Alice")).2) ∧
    screen_add_participant reset_trip ("   ") = (false, reset_trip) :=
  ⟨(c7_add_participant_iff reset_trip (" Alice ")).1 (by decide), by decide,
    (c7_add_participant_iff (add_participant reset_trip ("Alice")).2 ("Alice")).2
      (by decide),
    (c7_add_participant_iff reset_trip ("   ")).2 (by decide)⟩

/-- C8: on duplicate-free state, `remove_participant name` returns true
iff the name is in the roster; on success the name leaves the roster and
every expense's `paid_by`/`split_among`, all other memberships, the
expense count and all other expense fields being preserved; when absent it
returns false and changes nothing. -/
theorem c8_remove_participant (t : TripData) (name : String)
    (hroster : t.participants.Nodup)
    (hexp : ∀ e ∈ t.expenses, e.paid_by.Nodup ∧ e.split_among.Nodup) :
    (name ∈ t.participants →
      (remove_participant t name).1 = true ∧
      name ∉ (remove_participant t name).2.participants ∧
      (∀ q, q ≠ name →
        (q ∈ (remove_participant t name).2.participants ↔ q ∈ t.participants)) ∧
      (remove_participant t name).2.expenses.length = t.expenses.length ∧
      List.Forall₂ (contracts name) t.expenses (remove_participant t name).2.expenses ∧
      (remove_participant t name).2.trip_name = t.trip_name) ∧
    (name ∉ t.participants → remove_participant t name = (false, t)) := by
  constructor
  · intro h
    simp only [remove_participant, if_pos h]
    refine ⟨trivial, hroster.not_mem_erase, fun q hq => List.mem_erase_of_ne hq,
      by simp, ?_, trivial⟩
    rw [List.forall₂_map_right_iff, List.forall₂_same]
    intro e he
    obtain ⟨hp, hs⟩ := hexp e he
    exact ⟨rfl, rfl, rfl, rfl, rfl, hp.not_mem_erase, hs.not_mem_erase,
      fun q hq => ⟨List.mem_erase_of_ne hq, List.mem_erase_of_ne hq⟩⟩
  · intro h
    rw [remove_participant, if_neg h]

theorem c8_witness :
    (remove_participant st8 ("Eve")).1 = true ∧
    ("Eve") ∉ (remove_participant st8 ("Eve")).2.participants ∧
    (∀ q, q ≠ ("Eve") →
      (q ∈ (remove_participant st8 ("Eve")).2.participants ↔ q ∈ st8.participants)) ∧
    (remove_participant st8 ("Eve")).2.expenses.length = st8.expenses.length ∧
    List.Forall₂ (contracts ("Eve")) st8.expenses
      (remove_participant st8 ("Eve")).2.expenses ∧
    (remove_participant st8 ("Eve")).2.trip_name = st8.trip_name :=
  (c8_remove_participant st8 ("Eve") (by decide) (by decide)).1 (by decide)

theorem length_filter_ne_id (es : List Expense) (i : Int) :
    (es.filter fun e => e.id ≠ i).length + es.countP (fun e => decide (e.id = i))
      = es.length := by
  induction es with
  | nil => rfl
  | cons e es ih =>
    simp only [ne_eq, decide_not] at ih ⊢
    by_cases h : e.id = i
    · simp [List.filter_cons, List.countP_cons, h]
      omega
    · simp [List.filter_cons, List.countP_cons, h]
      omega

/-- C9 amended: `remove_expense` deletes every expense whose identifier
matches (exactly one when exactly one matches), keeps all others in
order, is a silent no-op when no identifier matches, and `add_expense`
assigns identifiers as current count + 1. -/
theorem c9_remove_expense_amended (t : TripData) (expense_id : Int) :
    ((∀ e ∈ t.expenses, e.id ≠ expense_id) → remove_expense t expense_id = t) ∧
    (∀ e ∈ (remove_expense t expense_id).expenses, e.id ≠ expense_id) ∧
    (remove_expense t expense_id).expenses.Sublist t.expenses ∧
    (∀ e ∈ t.expenses, e.id ≠ expense_id → e ∈ (remove_expense t expense_id).expenses) ∧
    (t.expenses.countP (fun e => decide (e.id = expense_id)) = 1 →
      (remove_expense t expense_id).expenses.length + 1 = t.expenses.length) ∧
    (∀ descr amount pb sa cat date,
      (add_expense t descr amount pb sa cat date).2.id = (t.expenses.length : Int) + 1 ∧
      (add_expense t descr amount pb sa cat date).1.expenses =
        t.expenses ++ [(add_expense t descr amount pb sa cat date).2]) := by
  refine ⟨?_, ?_, ?_, ?_, ?_, fun _ _ _ _ _ _ => ⟨rfl, rfl⟩⟩
  · intro h
    have hf : t.expenses.filter (fun e => e.id ≠ expense_id) = t.expenses :=
      List.filter_eq_self.2 fun a ha => by simpa using h a ha
    rw [remove_expense, hf]
  · intro e he
    have := (List.mem_filter.1 he).2
    simpa using this
  · exact List.filter_sublist t.expenses
  · intro e he hne
    exact List.mem_filter.2 ⟨he, by simpa using hne⟩
  · intro h
    have := length_filter_ne_id t.expenses expense_id
    rw [h] at this
    exact this

theorem c9_witness :
    remove_expense st9 7 = st9 ∧
    (remove_expense st8 1).expenses.length + 1 = st8.expenses.length :=
  ⟨(c9_remove_expense_amended st9 7).1 (by decide),
    (c9_remove_expense_amended st8 1).2.2.2.2.1 (by decide)⟩

theorem addTo_map (f : String → ℚ) (k : String) (δ : ℚ) :
    ∀ l : List String, l.Nodup → k ∈ l →
      addTo k δ (l.map fun p => (p, f p)) = .ok (l.map fun p => (p, updTo f k δ p)) := by
  intro l
  induction l with
  | nil => intro _ hk; cases hk
  | cons a l ih =>
    intro hl hk
    have hnotin : a ∉ l := (List.nodup_cons.1 hl).1
    rw [List.map_cons, List.map_cons, addTo]
    by_cases hak : a = k
    · rw [if_pos hak]
      have h1 : updTo f k δ a = f a + δ := by rw [updTo, if_pos hak]
      have h2 : l.map (fun p => (p, updTo f k δ p)) = l.map fun p => (p, f p) :=
        List.map_congr_left fun p hp => by
          rw [updTo, if_neg fun hpk => hnotin (by rw [hak, ← hpk]; exact hp)]
      rw [h1, h2]
    · rw [if_neg hak]
      have hkl : k ∈ l := by
        cases List.mem_cons.1 hk with
        | inl h => exact absurd h.symm hak
        | inr h => exact h
      rw [ih (List.nodup_cons.1 hl).2 hkl, ok_bind]
      have : updTo f k δ a = f a := by rw [updTo, if_neg hak]
      rw [this]

theorem creditEach_map (δ : ℚ) :
    ∀ (names : List String) (f : String → ℚ) (l : List String), l.Nodup →
      (∀ n ∈ names, n ∈ l) →
      creditEach δ names (l.map fun p => (p, f p)) =
        .ok (l.map fun p => (p, f p + (names.count p : ℚ) * δ)) := by
  intro names
  induction names with
  | nil =>
    intro f l _ _
    rw [creditEach, List.foldlM]
    have : l.map (fun p => (p, f p + ((List.count p [] : ℕ) : ℚ) * δ)) =
        l.map fun p => (p, f p) :=
      List.map_congr_left fun p _ => by simp
    rw [this]
    rfl
  | cons n ns ih =>
    intro f l hl hsub
    rw [creditEach, List.foldlM,
      addTo_map f n δ l hl (hsub n (List.mem_cons_self n ns)), ok_bind]
    have := ih (updTo f n δ) l hl fun a ha => hsub a (List.mem_cons_of_mem n ha)
    rw [creditEach] at this
    rw [this]
    congr 1
    refine List.map_congr_left fun p _ => ?_
    rw [updTo]
    by_cases hpn : p = n
    · rw [if_pos hpn, hpn, List.count_cons_self]
      push_cast
      ring
    · rw [if_neg hpn, List.count_cons_of_ne hpn]

theorem balanceStep_map (f : String → ℚ) (l : List String) (e : Expense)
    (hl : l.Nodup) (hsplit : e.split_among ≠ [])
    (hpaidsub : ∀ n ∈ e.paid_by, n ∈ l)
    (hsplitsub : ∀ n ∈ e.split_among, n ∈ l) :
    balanceStep (l.map fun p => (p, f p)) e =
      .ok (l.map fun p => (p, f p + expContrib e p)) := by
  rw [balanceStep, if_neg (fun h0 => hsplit (List.length_eq_zero.1 h0)),
    creditEach_map _ e.paid_by f l hl hpaidsub, ok_bind,
    creditEach_map _ e.split_among _ l hl hsplitsub]
  congr 1
  refine List.map_congr_left fun p _ => ?_
  rw [expContrib]
  ring_nf

theorem foldlM_balanceStep_map :
    ∀ (es : List Expense) (f : String → ℚ) (l : List String), l.Nodup →
      (∀ e ∈ es, e.split_among ≠ [] ∧ (∀ n ∈ e.paid_by, n ∈ l) ∧
        (∀ n ∈ e.split_among, n ∈ l)) →
      es.foldlM balanceStep (l.map fun p => (p, f p)) =
        .ok (l.map fun p => (p, f p + balProc es p)) := by
  intro es
  induction es with
  | nil =>
    intro f l _ _
    rw [List.foldlM]
    have : l.map (fun p => (p, f p + balProc [] p)) = l.map fun p => (p, f p) :=
      List.map_congr_left fun p _ => by simp [balProc]
    rw [this]
    rfl
  | cons e es ih =>
    intro f l hl hexp
    obtain ⟨h1, h2, h3⟩ := hexp e (List.mem_cons_self e es)
    rw [List.foldlM, balanceStep_map f l e hl h1 h2 h3, ok_bind]
    have := ih (fun p => f p + expContrib e p) l hl
      fun x hx => hexp x (List.mem_cons_of_mem e hx)
    rw [this]
    congr 1
    refine List.map_congr_left fun p _ => ?_
    have : balProc (e :: es) p = expContrib e p + balProc es p := by
      rw [balProc, balProc, List.map_cons, List.sum_cons]
    rw [this]
    ring_nf

theorem calculate_balances_repr (t : TripData) (hroster : t.participants.Nodup)
    (hexp : ∀ e ∈ t.expenses, e.split_among ≠ [] ∧
      (∀ n ∈ e.paid_by, n ∈ t.participants) ∧
      (∀ n ∈ e.split_among, n ∈ t.participants)) :
    calculate_balances t =
      .ok (t.participants.map fun p => (p, balProc t.expenses p)) := by
  rw [calculate_balances]
  have h0 : (t.participants.map fun p => (p, (0 : ℚ))) =
      t.participants.map fun p => (p, (fun _ : String => (0 : ℚ)) p) := rfl
  rw [h0, foldlM_balanceStep_map t.expenses (fun _ => 0) t.participants hroster hexp]
  congr 1
  exact List.map_congr_left fun p _ => by simp

theorem lookup_map_self (g : String → ℚ) :
    ∀ l : List String, l.Nodup → ∀ p : String,
      (l.map fun a => (a, g a)).lookup p =
        if p ∈ l then some (g p) else none := by
  intro l
  induction l with
  | nil => intro _ p; simp
  | cons a l ih =>
    intro hl p
    rw [List.map_cons, List.lookup_cons]
    by_cases hpa : p = a
    · subst hpa
      simp
    · have hbeq : (p == a) = false := beq_false_of_ne hpa
      rw [hbeq]
      simp only [Bool.false_eq_true, if_false]
      rw [ih (List.nodup_cons.1 hl).2 p]
      by_cases hpl : p ∈ l
      · rw [if_pos hpl, if_pos (List.mem_cons_of_mem a hpl)]
      · rw [if_neg hpl, if_neg (by simp [hpa, hpl])]

theorem balProc_eq_balance_spec :
    ∀ (es : List Expense) (p : String),
      (∀ e ∈ es, e.paid_by.Nodup ∧ e.split_among.Nodup) →
      balProc es p = balance_spec es p := by
  intro es
  induction es with
  | nil => intro p _; simp [balProc, balance_spec]
  | cons e es ih =>
    intro p h
    obtain ⟨hp, hs⟩ := h e (List.mem_cons_self e es)
    have ihes := ih p fun x hx => h x (List.mem_cons_of_mem e hx)
    have hbp : balProc (e :: es) p = expContrib e p + balProc es p := by
      rw [balProc, balProc, List.map_cons, List.sum_cons]
    have hcount_paid : (e.paid_by.count p : ℚ) =
        if p ∈ e.paid_by then 1 else 0 := by
      by_cases hmem : p ∈ e.paid_by
      · rw [if_pos hmem, List.count_eq_one_of_mem hp hmem]
        norm_num
      · rw [if_neg hmem, List.count_eq_zero_of_not_mem hmem]
        norm_num
    have hcount_split : (e.split_among.count p : ℚ) =
        if p ∈ e.split_among then 1 else 0 := by
      by_cases hmem : p ∈ e.split_among
      · rw [if_pos hmem, List.count_eq_one_of_mem hs hmem]
        norm_num
      · rw [if_neg hmem, List.count_eq_zero_of_not_mem hmem]
        norm_num
    rw [hbp, ihes, expContrib, hcount_paid, hcount_split,
      balance_spec, balance_spec, List.filter_cons, List.filter_cons]
    by_cases h1 : p ∈ e.paid_by <;> by_cases h2 : p ∈ e.split_among <;>
      simp [h1, h2] <;> ring

/-- C2: on well-formed state (duplicate-free roster, each expense's sides
non-empty duplicate-free subsets of the roster), `calculate_balances`
returns a mapping over exactly the roster assigning each participant the
spec's balance formula, participants in no expense getting 0; and on
Scenario A the result is Alice 50, Bob -50. -/
theorem c2_calculate_balances_spec :
    (∀ t : TripData, t.participants.Nodup →
      (∀ e ∈ t.expenses,
        e.paid_by ≠ [] ∧ e.split_among ≠ [] ∧
        e.paid_by.Nodup ∧ e.split_among.Nodup ∧
        (∀ n ∈ e.paid_by, n ∈ t.participants) ∧
        (∀ n ∈ e.split_among, n ∈ t.participants)) →
      ∃ bs, calculate_balances t = .ok bs ∧
        bs.map Prod.fst = t.participants ∧
        (∀ p, bs.lookup p =
          if p ∈ t.participants then some (balance_spec t.expenses p) else none) ∧
        (∀ p ∈ t.participants,
          (∀ e ∈ t.expenses, p ∉ e.paid_by ∧ p ∉ e.split_among) →
          bs.lookup p = some 0)) ∧
    calculate_balances scenA = .ok [(("Alice"), 50), (("Bob"), -50)] := by
  constructor
  · intro t hroster hexp
    refine ⟨_, calculate_balances_repr t hroster
      (fun e he => ⟨(hexp e he).2.1, (hexp e he).2.2.2.2.1, (hexp e he).2.2.2.2.2⟩),
      ?_, ?_, ?_⟩
    · rw [List.map_map]
      have hid : (Prod.fst ∘ fun p : String => (p, balProc t.expenses p)) = id := rfl
      rw [hid, List.map_id]
    · intro p
      rw [lookup_map_self _ t.participants hroster p]
      by_cases hp : p ∈ t.participants
      · rw [if_pos hp, if_pos hp,
          balProc_eq_balance_spec t.expenses p
            (fun e he => ⟨(hexp e he).2.2.1, (hexp e he).2.2.2.1⟩)]
      · rw [if_neg hp, if_neg hp]
    · intro p hp hnone
      rw [lookup_map_self _ t.participants hroster p, if_pos hp]
      have : balProc t.expenses p = 0 := by
        rw [balProc]
        refine List.sum_eq_zero fun x hx => ?_
        obtain ⟨e, he, rfl⟩ := List.mem_map.1 hx
        rw [expContrib, List.count_eq_zero_of_not_mem (hnone e he).1,
          List.count_eq_zero_of_not_mem (hnone e he).2]
        norm_num
      rw [this]
  · exact scenA_balances

theorem addTo_keys {k : String} {δ : ℚ} :
    ∀ {bal bal' : List (String × ℚ)}, addTo k δ bal = .ok bal' →
      bal'.map Prod.fst = bal.map Prod.fst := by
  intro bal
  induction bal with
  | nil => intro bal' h; simp [addTo] at h
  | cons kv rest ih =>
    intro bal' h
    obtain ⟨k', v⟩ := kv
    by_cases hk : k' = k
    · simp [addTo, hk] at h
      subst h
      simp [hk]
    · rw [addTo] at h
      simp only [if_neg hk] at h
      cases hrest : addTo k δ rest with
      | error e => rw [hrest] at h; simp [error_bind] at h
      | ok rest' =>
        rw [hrest, ok_bind] at h
        cases h
        simp [ih hrest]

theorem creditEach_keys {δ : ℚ} :
    ∀ {names : List String} {bal bal' : List (String × ℚ)},
      creditEach δ names bal = .ok bal' →
      bal'.map Prod.fst = bal.map Prod.fst := by
  intro names
  induction names with
  | nil =>
    intro bal bal' h
    simp [creditEach, List.foldlM, pure, Except.pure] at h
    subst h
    rfl
  | cons n ns ih =>
    intro bal bal' h
    rw [creditEach, List.foldlM] at h
    cases hstep : addTo n δ bal with
    | error e => rw [hstep] at h; simp [error_bind] at h
    | ok b =>
      rw [hstep, ok_bind] at h
      rw [ih h, addTo_keys hstep]

theorem balanceStep_keys {bal bal' : List (String × ℚ)} {e : Expense}
    (h : balanceStep bal e = .ok bal') :
    bal'.map Prod.fst = bal.map Prod.fst := by
  rw [balanceStep] at h
  by_cases hsplit : e.split_among.length = 0
  · rw [if_pos hsplit] at h; simp at h
  · rw [if_neg hsplit] at h
    cases h1 : creditEach (e.amount / (e.paid_by.length : ℚ)) e.paid_by bal with
    | error er => rw [h1] at h; simp [error_bind] at h
    | ok b =>
      rw [h1, ok_bind] at h
      rw [creditEach_keys h, creditEach_keys h1]

theorem foldlM_balanceStep_keys :
    ∀ {es : List Expense} {bal bs : List (String × ℚ)},
      es.foldlM balanceStep bal = .ok bs →
      bs.map Prod.fst = bal.map Prod.fst := by
  intro es
  induction es with
  | nil =>
    intro bal bs h
    simp [List.foldlM, pure, Except.pure] at h
    subst h
    rfl
  | cons e es ih =>
    intro bal bs h
    rw [List.foldlM] at h
    cases hstep : balanceStep bal e with
    | error er => rw [hstep] at h; simp [error_bind] at h
    | ok b =>
      rw [hstep, ok_bind] at h
      rw [ih h, balanceStep_keys hstep]

theorem calculate_balances_keys {t : TripData} {bs : List (String × ℚ)}
    (h : calculate_balances t = .ok bs) : bs.map Prod.fst = t.participants := by
  rw [calculate_balances] at h
  rw [foldlM_balanceStep_keys h, List.map_map]
  have hid : (Prod.fst ∘ fun p : String => (p, (0 : ℚ))) = id := rfl
  rw [hid, List.map_id]

theorem keys_repr :
    ∀ (bs : List (String × ℚ)) (l : List String), bs.map Prod.fst = l → l.Nodup →
      bs = l.map fun p => (p, ((bs.lookup p).getD 0)) := by
  intro bs
  induction bs with
  | nil =>
    intro l hmap _
    rw [← hmap]
    rfl
  | cons kv rest ih =>
    intro l hmap hl
    obtain ⟨k, v⟩ := kv
    subst hmap
    simp only [List.map_cons]
    have hhead : ((((k, v) :: rest).lookup k).getD 0) = v := by
      rw [List.lookup_cons]
      simp
    rw [hhead]
    have hnotin : k ∉ rest.map Prod.fst := by
      have := List.nodup_cons.1 hl
      simpa using this.1
    have htail : rest = (rest.map Prod.fst).map fun p => (p, ((rest.lookup p).getD 0)) :=
      ih (rest.map Prod.fst) rfl (List.nodup_cons.1 hl).2
    have hsame :
        ((rest.map Prod.fst).map fun p => (p, ((rest.lookup p).getD 0))) =
          (rest.map Prod.fst).map fun p => (p, ((((k, v) :: rest).lookup p).getD 0)) :=
      List.map_congr_left fun p hp => by
        have hpk : p ≠ k := fun hpk => hnotin (hpk ▸ hp)
        rw [List.lookup_cons, beq_false_of_ne hpk]
    rw [List.cons.injEq]
    exact ⟨rfl, by rw [← hsame, ← htail]⟩

theorem spec_scan_eq (d : String) :
    ∀ (cs : List (String × ℚ)) (r : ℚ), spec_scan d cs r = settleOne d cs r := by
  intro cs
  induction cs with
  | nil => intro r; rfl
  | cons c rest ih =>
    intro r
    obtain ⟨cn, credit⟩ := c
    rw [spec_scan, settleOne]
    simp only [ih]

theorem spec_sweep_eq :
    ∀ (ds cs : List (String × ℚ)), spec_sweep cs ds = settleAll cs ds := by
  intro ds
  induction ds with
  | nil => intro cs; rfl
  | cons d rest ih =>
    intro cs
    obtain ⟨dn, debt⟩ := d
    rw [spec_sweep, settleAll]
    rw [spec_scan_eq, ih]

/-- C3: on a duplicate-free roster, whenever `calculate_balances` returns
the mapping `bs`, `get_settlements` returns exactly the claim's greedy
computation over that mapping: creditors and debtors listed in roster
insertion order with the `0.01` thresholds, debtors processed left to
right against a creditor list that is consumed in place, recording
`min(remaining_debt, remaining_credit)` rounded to 2 decimals only when
it exceeds `0.01`. -/
theorem c3_get_settlements_greedy (t : TripData) (bs : List (String × ℚ))
    (hroster : t.participants.Nodup) (h : calculate_balances t = .ok bs) :
    get_settlements t =
      .ok (greedy_spec t.participants fun p => ((bs.lookup p).getD 0)) := by
  have hkeys := calculate_balances_keys h
  have hbs : bs = t.participants.map fun p => (p, ((bs.lookup p).getD 0)) :=
    keys_repr bs t.participants hkeys hroster
  rw [get_settlements, h, ok_bind, greedy_spec, spec_sweep_eq]
  dsimp only
  conv_lhs => rw [hbs]
  rw [List.filter_map, List.filter_map, List.map_map]
  rfl

theorem c3_witness :
    get_settlements scenA =
      .ok (greedy_spec scenA.participants fun p =>
        ((([(("Alice"), (50 : ℚ)), (("Bob"), -50)]).lookup p).getD 0)) :=
  c3_get_settlements_greedy scenA _ (by decide) scenA_balances

theorem c2_witness :
    ∃ bs, calculate_balances scenA = .ok bs ∧
      bs.map Prod.fst = scenA.participants ∧
      (∀ p, bs.lookup p =
        if p ∈ scenA.participants then some (balance_spec scenA.expenses p) else none) ∧
      (∀ p ∈ scenA.participants,
        (∀ e ∈ scenA.expenses, p ∉ e.paid_by ∧ p ∉ e.split_among) →
        bs.lookup p = some 0) :=
  c2_calculate_balances_spec.1 scenA (by decide) (by decide)

end TripTracker
